import Mathlib

/-
Verification of the FixedPt fixed-point arithmetic library (fixedpt.cpp).

The C++ template struct FixedPt<WWIDTH, FRACWIDTH, Signed> stores its value
in a bit field `val_t val : (WWIDTH + FRACWIDTH)`.  We embed a value of such
a type by its mathematical raw value (an integer), together with the width
parameters.  Writing an integer into the bit field truncates it to
TotalWidth = WWIDTH + FRACWIDTH bits (two's-complement wrap when Signed).
Floating-point numbers (`double`/`float`) are embedded as exact rationals;
the C `round` function (half away from zero) and the C++ float-to-int conversion
(truncation toward zero) are modelled explicitly.  The process-wide
saturation flag `SAT` is threaded through every operation as an explicit
`sat : Bool` parameter (operators that never read the flag simply ignore
their parameter).
-/

namespace FPMath

/-- The constant `max_val()` of `FixedPt`:
`Signed ? (1 << (W+F-1)) - 1 : (1 << (W+F)) - 1` with `T = W + F`. -/
def maxVal (sg : Bool) (T : ℕ) : ℤ :=
  if sg then 2 ^ (T - 1) - 1 else 2 ^ T - 1

/-- Writing an integer into the `T`-bit bit field `val_t val : T`:
unsigned fields keep the low `T` bits; signed fields wrap into
two's-complement range `[-2^(T-1), 2^(T-1))`. -/
def store (sg : Bool) (T : ℕ) (v : ℤ) : ℤ :=
  if sg then (v + 2 ^ (T - 1)) % 2 ^ T - 2 ^ (T - 1) else v % 2 ^ T

/-- The value of an arithmetic expression over (promoted) `val_t`
operands of a `T`-bit field, wrapped into the C++ type the expression is
computed in: bit fields of total width below 32 undergo integral
promotion to the 32-bit signed `int`; width-32 fields compute in their
own 32-bit type; wider fields compute in the 64-bit `val_t`.  Overflow
of the signed types is modelled as the two's-complement wrap the
reference compilers produce.  Successive operations in the same
arithmetic type compose, so a single wrap around a compound expression
equals the nested per-operation wraps. -/
def arith (sg : Bool) (T : ℕ) (x : ℤ) : ℤ :=
  if T < 32 then store true 32 x
  else if T = 32 then store sg 32 x
  else store sg 64 x

/-- The value the `int` variable `res` contributes to the comparison
`res > max_val()` after the usual arithmetic conversions: against the
`uint32_t` / `uint64_t` return type of `max_val()` (unsigned fields of
total width 17..32 / 33..64) the `int` value is converted modulo
`2^32` / `2^64`; in every other case the comparison is exact in value
(the promoted common type holds both sides). -/
def cmpVal (sg : Bool) (T : ℕ) (r : ℤ) : ℤ :=
  if sg then r
  else if T ≤ 16 then r
  else if T ≤ 32 then r % 2 ^ 32
  else r % 2 ^ 64

/-- Smallest raw value representable in the `T`-bit field. -/
def loBound (sg : Bool) (T : ℕ) : ℤ := if sg then -(2 ^ (T - 1)) else 0

/-- One past the largest raw value representable in the `T`-bit field. -/
def hiBound (sg : Bool) (T : ℕ) : ℤ := if sg then 2 ^ (T - 1) else 2 ^ T

/-- The C `round` function: round to nearest integer, halves away from zero. -/
def roundAway (q : ℚ) : ℤ := if 0 ≤ q then ⌊q + 1 / 2⌋ else ⌈q - 1 / 2⌉

/-- C++ floating-to-integer conversion `int(q)`: truncation toward zero. -/
def ratTrunc (q : ℚ) : ℤ := if 0 ≤ q then ⌊q⌋ else ⌈q⌉

/-- The member `FixedPt::float2fixed(n)`:
`if (SAT && n > max_val()) ret = max_val(); else ret = round(n * 2^FRACWIDTH)`. -/
def float2fixed (sg : Bool) (T F : ℕ) (sat : Bool) (n : ℚ) : ℤ :=
  if sat ∧ (maxVal sg T : ℚ) < n then maxVal sg T
  else roundAway (n * 2 ^ F)

/-- The `FixedPt` constructor from a floating-point number: the result of
`float2fixed` is written into the `T`-bit field `val`. -/
def fromFloat (sg : Bool) (T F : ℕ) (sat : Bool) (n : ℚ) : ℤ :=
  store sg T (float2fixed sg T F sat n)

/-- The fractional-part loop of `FixedPt::to_double`: for `i` from
`-FRACWIDTH` to `-1`, add `2^i` when the current low bit of `v` is set,
shifting `v` right once per step (arithmetic shift, i.e. floor division). -/
def fracBits : ℕ → ℤ → ℚ
  | 0, _ => 0
  | F + 1, v => (if v % 2 = 1 then (1 : ℚ) / 2 ^ (F + 1) else 0) + fracBits F (v / 2)

/-- The member `FixedPt::to_double()`: after the loop `v` holds `val >> FRACWIDTH`
(the whole part) and the accumulated `fractional` is added to it. -/
def to_double (F : ℕ) (v : ℤ) : ℚ :=
  ((v / 2 ^ F : ℤ) : ℚ) + fracBits F v

/-- Infix `operator+` for FixedPts of the same width (the unsigned and the
signed overload have the same body):
`auto sum = FixedPt(a.val + b.val);`
`if (SAT && ((sum.val < a.val) || (sum.val < b.val))) sum.val = sum.max_val();`. -/
def addSW (sg : Bool) (T : ℕ) (sat : Bool) (a b : ℤ) : ℤ :=
  let sum := store sg T (a + b)
  if sat ∧ (sum < a ∨ sum < b) then maxVal sg T else sum

/-- Infix `operator-` for FixedPts of the same width:
`return FixedPt(a.val - b.val);` — the global saturation flag is not read. -/
def subSW (sg : Bool) (T : ℕ) (sat : Bool) (a b : ℤ) : ℤ :=
  store sg T (a - b)

/-- Infix `operator*` for FixedPts of the same width and signedness:
`auto prod  = FixedPt<2*WWID,2*FWID,SIGNED>(a.val * b.val);`
`auto prod2 = FixedPt<WWID,FWID,SIGNED>(prod.val >> FWID);`
`if (SIGNED && ((a.val>0 && b.val>0) || (a.val<0 && b.val<0))) prod2.val &= prod2.max_val();`
`if (SAT && (prod.val >> (WWID+2*FWID-adjustment)) > 0) prod2.val = prod2.max_val();`
with `adjustment = SIGNED ? 1 : 0`.  Note `WWID + 2*FWID = T + F`.  The
product `a.val * b.val` is computed in the operands' arithmetic type
(`arith`), so for total widths 17..32 it wraps at 32 bits before the
double-width store.  The bitwise AND with the mask
`max_val() = 2^(T-1) - 1` keeps the low `T-1` bits of the
two's-complement representation, i.e. reduces mod `2^(T-1)`. -/
def mulSW (sg : Bool) (T F : ℕ) (sat : Bool) (a b : ℤ) : ℤ :=
  let prod := store sg (2 * T) (arith sg T (a * b))
  let prod2 := store sg T (prod / 2 ^ F)
  let prod2c := if sg ∧ ((0 < a ∧ 0 < b) ∨ (a < 0 ∧ b < 0))
    then prod2 % 2 ^ (T - 1) else prod2
  if sat ∧ 0 < prod / 2 ^ (T + F - (if sg then 1 else 0)) then maxVal sg T else prod2c

/-- Infix `operator/` for FixedPts of the same width (the unsigned and the
signed overload have the same body):
`return FixedPt(int((float(a.val)/float(b.val))*(1 << FWID)));`
— the global saturation flag is not read; the `float` arithmetic is
modelled as exact rational arithmetic and `int(...)` as truncation. -/
def divSW (sg : Bool) (T F : ℕ) (sat : Bool) (a b : ℤ) : ℤ :=
  store sg T (ratTrunc ((a : ℚ) / (b : ℚ) * 2 ^ F))

/-- The member `FixedPt::add_`, the destructive add:
`int res = static_cast<int>(val + n.val);`
`if (SAT && (res > max_val())) val = max_val(); else val = val + n.val;`
— the sum `val + n.val` is computed in the operands' arithmetic type
(`arith`), the `static_cast<int>` truncates it to the 32-bit signed
range, the comparison against `max_val()` converts `res` per `cmpVal`,
and the final write into `val` truncates to the `T`-bit field. -/
def addDestr (sg : Bool) (T : ℕ) (sat : Bool) (a b : ℤ) : ℤ :=
  let res := store true 32 (arith sg T (a + b))
  if sat ∧ maxVal sg T < cmpVal sg T res then maxVal sg T
  else store sg T (arith sg T (a + b))

/-- The multiplication pipeline as the specification describes it: the
full double-width raw product (held exactly, with no intermediate
truncation), arithmetic shift right by the result fractional width,
narrowing into the target field, the signed same-sign sign-bit clear, and
— when saturation is on — a clamp to the maximum exactly when the true
product has bits at or above position `T + F - adjustment`, i.e. when
`2^(T+F-adjustment) ≤ a*b` (`adjustment` is 1 for signed types, 0
otherwise). -/
def mulSpec (sg : Bool) (T F : ℕ) (sat : Bool) (a b : ℤ) : ℤ :=
  let prod := a * b
  let narrowed := store sg T (prod / 2 ^ F)
  let cleared := if sg ∧ ((0 < a ∧ 0 < b) ∨ (a < 0 ∧ b < 0))
    then narrowed % 2 ^ (T - 1) else narrowed
  if sat ∧ 2 ^ (T + F - (if sg then 1 else 0)) ≤ prod then maxVal sg T else cleared

/-! ### Mixed-width operators -/

/-- A `FixedPt<W, F>` value at the mixed-width operator level: its two
width parameters (whole bits `W`, fractional bits `F`) and its raw field
value.  The mixed-width operator templates in the source are the unsigned
ones, so `raw` here ranges over `[0, 2^(W+F))`. -/
structure Fx where
  W : ℕ
  F : ℕ
  raw : ℤ
  deriving DecidableEq

/-- Mixed-width `operator+` (both unsigned): the operand with the larger
fractional width (`a` on ties) contributes its raw value unshifted, the
other operand's raw value is left-shifted by the fractional-width
difference; the sum is stored at widths `(max W, max F)` and the same
wrap-detection saturation check as the same-width operator is applied. -/
def addMX (sat : Bool) (x y : Fx) : Fx :=
  let lv := if y.F ≤ x.F then x.raw else y.raw
  let lw := if y.F ≤ x.F then x.F else y.F
  let sv := if x.F < y.F then x.raw else y.raw
  let sw := if x.F < y.F then x.F else y.F
  let Tr := max x.W y.W + max x.F y.F
  let sum := store false Tr (lv + sv * 2 ^ (lw - sw))
  ⟨max x.W y.W, max x.F y.F,
    if sat ∧ (sum < x.raw ∨ sum < y.raw) then maxVal false Tr else sum⟩

/-- Mixed-width `operator-` (both unsigned): after the larger/smaller
fractional-width selection, the branch
`(a.val == smaller_frac_val) ? ((a.val << shift_by) - b.val)
                             : (a.val - (b.val << shift_by))`
decides which operand is shifted by comparing raw VALUES, and the
difference is stored at widths `(max W, max F)`; the saturation flag is
not read. -/
def subMX (x y : Fx) : Fx :=
  let lw := if y.F ≤ x.F then x.F else y.F
  let sv := if x.F < y.F then x.raw else y.raw
  let sw := if x.F < y.F then x.F else y.F
  let Tr := max x.W y.W + max x.F y.F
  let diff := if x.raw = sv then x.raw * 2 ^ (lw - sw) - y.raw
    else x.raw - y.raw * 2 ^ (lw - sw)
  ⟨max x.W y.W, max x.F y.F, store false Tr diff⟩

/-- Mixed-width `operator/` (both unsigned): the same value-equality
branch as mixed subtraction selects the orientation; the quotient of the
aligned raw values is computed in (exactly modelled) floating point,
rescaled by `1 << max(AFWID, BFWID)`, converted to `int` (truncation
toward zero) and stored at widths `(max W, max F)`; the saturation flag
is not read. -/
def divMX (x y : Fx) : Fx :=
  let lw := if y.F ≤ x.F then x.F else y.F
  let sv := if x.F < y.F then x.raw else y.raw
  let sw := if x.F < y.F then x.F else y.F
  let Tr := max x.W y.W + max x.F y.F
  let q := if x.raw = sv then
      ratTrunc (((x.raw * 2 ^ (lw - sw) : ℤ) : ℚ) / (y.raw : ℚ) * 2 ^ max x.F y.F)
    else ratTrunc ((x.raw : ℚ) / ((y.raw * 2 ^ (lw - sw) : ℤ) : ℚ) * 2 ^ max x.F y.F)
  ⟨max x.W y.W, max x.F y.F, store false Tr q⟩

/-- Infix `operator*` for FixedPts of differing widths and the same
signedness: the operands are aligned exactly as in the other mixed-width
operators (here by fractional-width comparison, with no value-equality
branch), the aligned product is formed in
`FixedPt<max_wwid*2, max_fwid*2, SIGNED>`, shifted right by `max_fwid`
and narrowed to `FixedPt<max_wwid, max_fwid, SIGNED>`; the saturation
check `(prod.val >> (max_wwid+2*max_fwid-adjustment)) > 0` runs first
and the same-sign sign-bit clear second.  The unsigned-only mixed
template is the `SIGNED = false` instance of this body.  The shift and
the product are computed in the common arithmetic type of the two
operands (`arith` at the wider operand's total width); its nested
per-operation wraps share one modulus, so they collapse into the single
`arith` around the aligned product. -/
def mulMX (sg sat : Bool) (x y : Fx) : Fx :=
  let lv := if y.F ≤ x.F then x.raw else y.raw
  let lw := if y.F ≤ x.F then x.F else y.F
  let sv := if x.F < y.F then x.raw else y.raw
  let sw := if x.F < y.F then x.F else y.F
  let Wr := max x.W y.W
  let Fr := max x.F y.F
  let prod := store sg (2 * (Wr + Fr))
    (arith sg (max (x.W + x.F) (y.W + y.F)) (lv * (sv * 2 ^ (lw - sw))))
  let prod2 := store sg (Wr + Fr) (prod / 2 ^ Fr)
  let prod2s := if sat ∧ 0 < prod / 2 ^ (Wr + 2 * Fr - (if sg then 1 else 0))
    then maxVal sg (Wr + Fr) else prod2
  let prod2c := if sg ∧ ((0 < x.raw ∧ 0 < y.raw) ∨ (x.raw < 0 ∧ y.raw < 0))
    then prod2s % 2 ^ (Wr + Fr - 1) else prod2s
  ⟨Wr, Fr, prod2c⟩

/-- The mixed-width multiplication pipeline as the specification
describes it: the full double-width aligned product (held exactly, with
no intermediate truncation), arithmetic shift right by the result
fractional width `max F`, narrowing into the `(max W, max F)` target
field, a clamp to the maximum — when saturation is on — exactly when the
aligned product has bits at or above position
`max_wwid + 2*max_fwid - adjustment`, and the signed same-sign sign-bit
clear. -/
def mulMXSpec (sg sat : Bool) (x y : Fx) : Fx :=
  let lv := if y.F ≤ x.F then x.raw else y.raw
  let lw := if y.F ≤ x.F then x.F else y.F
  let sv := if x.F < y.F then x.raw else y.raw
  let sw := if x.F < y.F then x.F else y.F
  let Wr := max x.W y.W
  let Fr := max x.F y.F
  let prod := lv * (sv * 2 ^ (lw - sw))
  let narrowed := store sg (Wr + Fr) (prod / 2 ^ Fr)
  let clamped := if sat ∧ 2 ^ (Wr + 2 * Fr - (if sg then 1 else 0)) ≤ prod
    then maxVal sg (Wr + Fr) else narrowed
  let cleared := if sg ∧ ((0 < x.raw ∧ 0 < y.raw) ∨ (x.raw < 0 ∧ y.raw < 0))
    then clamped % 2 ^ (Wr + Fr - 1) else clamped
  ⟨Wr, Fr, cleared⟩

/-- The partial template specialisations of `TypeForSize_<N, Signed>`:
the bit size of the selected underlying integer type (8 for
`N > 0 && N < 9`, 16 for `N > 8 && N < 17`, 32 for `N > 16 && N < 33`,
64 for `N > 32 && N < 65`); `none` when no specialisation matches, which
in C++ leaves only the undefined primary template — a compile-time
error. -/
def TypeForSize (N : ℕ) : Option ℕ :=
  if 0 < N ∧ N < 9 then some 8
  else if 8 < N ∧ N < 17 then some 16
  else if 16 < N ∧ N < 33 then some 32
  else if 32 < N ∧ N < 65 then some 64
  else none

/-- The selected storage kind together with its signedness: the `Signed`
template flag picks the `intN_t` rather than the `uintN_t` specialisation
of the same bit size. -/
def TypeForSizeS (N : ℕ) (sg : Bool) : Option (ℕ × Bool) :=
  Option.map (fun w => (w, sg)) (TypeForSize N)

/-! ### Arithmetic helper lemmas -/

lemma store_false_def (T : ℕ) (v : ℤ) : store false T v = v % 2 ^ T := rfl

lemma store_true_def (T : ℕ) (v : ℤ) :
    store true T v = (v + 2 ^ (T - 1)) % 2 ^ T - 2 ^ (T - 1) := rfl

lemma maxVal_false_def (T : ℕ) : maxVal false T = 2 ^ T - 1 := rfl

lemma maxVal_true_def (T : ℕ) : maxVal true T = 2 ^ (T - 1) - 1 := rfl

lemma two_pow_split (T : ℕ) (hT : 1 ≤ T) : (2 : ℤ) ^ T = 2 ^ (T - 1) * 2 := by
  rw [← pow_succ]
  congr 1
  omega

lemma emod_shift_up (m x : ℤ) (h1 : -m ≤ x) (h2 : x < 0) : x % m = x + m := by
  have h3 : (x + m * 1) % m = x % m := Int.add_mul_emod_self_left x m 1
  rw [show x + m * 1 = x + m by ring] at h3
  rw [← h3, Int.emod_eq_of_lt (by omega) (by omega)]

lemma emod_shift_down (m x : ℤ) (h1 : m ≤ x) (h2 : x < 2 * m) : x % m = x - m := by
  have h3 : (x - m + m * 1) % m = (x - m) % m := Int.add_mul_emod_self_left (x - m) m 1
  rw [show x - m + m * 1 = x by ring] at h3
  rw [h3, Int.emod_eq_of_lt (by omega) (by omega)]

lemma store_false_of_range (T : ℕ) (v : ℤ) (h1 : 0 ≤ v) (h2 : v < 2 ^ T) :
    store false T v = v := by
  simp [store, Int.emod_eq_of_lt h1 h2]

lemma store_true_of_range (T : ℕ) (hT : 1 ≤ T) (v : ℤ)
    (h1 : -(2 ^ (T - 1)) ≤ v) (h2 : v < 2 ^ (T - 1)) : store true T v = v := by
  have hp := two_pow_split T hT
  simp only [store, if_pos]
  rw [Int.emod_eq_of_lt (by omega) (by omega)]
  ring

lemma maxVal_eq_hiBound_sub_one (sg : Bool) (T : ℕ) :
    maxVal sg T = hiBound sg T - 1 := by
  cases sg <;> simp [maxVal, hiBound]

lemma maxVal_nonneg (sg : Bool) (T : ℕ) (hT : 1 ≤ T) : 0 ≤ maxVal sg T := by
  have h1 : (1 : ℤ) ≤ 2 ^ T := one_le_pow₀ (by norm_num)
  have h2 : (1 : ℤ) ≤ 2 ^ (T - 1) := one_le_pow₀ (by norm_num)
  cases sg <;> simp [maxVal] <;> omega

lemma emod_two_pow_succ (F : ℕ) (v : ℤ) :
    v % 2 ^ (F + 1) = v % 2 + 2 * (v / 2 % 2 ^ F) := by
  have h1 : (2 : ℤ) * (v / 2) + v % 2 = v := Int.ediv_add_emod v 2
  have h2 : (2 : ℤ) ^ F * (v / 2 / 2 ^ F) + (v / 2) % 2 ^ F = v / 2 :=
    Int.ediv_add_emod (v / 2) (2 ^ F)
  have hr1 : 0 ≤ v % 2 := Int.emod_nonneg v (by norm_num)
  have hr2 : v % 2 < 2 := Int.emod_lt_of_pos v (by norm_num)
  have hm1 : 0 ≤ v / 2 % 2 ^ F := Int.emod_nonneg _ (by positivity)
  have hm2 : v / 2 % 2 ^ F < 2 ^ F := Int.emod_lt_of_pos _ (by positivity)
  have hp : (2 : ℤ) ^ (F + 1) = 2 ^ F * 2 := pow_succ 2 F
  have hv : v = v % 2 + 2 * (v / 2 % 2 ^ F) + 2 ^ (F + 1) * (v / 2 / 2 ^ F) := by
    rw [hp]
    nlinarith [h1, h2]
  calc v % 2 ^ (F + 1)
      = (v % 2 + 2 * (v / 2 % 2 ^ F) + 2 ^ (F + 1) * (v / 2 / 2 ^ F)) % 2 ^ (F + 1) := by
        rw [← hv]
    _ = (v % 2 + 2 * (v / 2 % 2 ^ F)) % 2 ^ (F + 1) :=
        Int.add_mul_emod_self_left _ _ _
    _ = v % 2 + 2 * (v / 2 % 2 ^ F) := Int.emod_eq_of_lt (by omega) (by omega)

lemma fracBits_eq (F : ℕ) : ∀ v : ℤ, fracBits F v = ((v % 2 ^ F : ℤ) : ℚ) / 2 ^ F := by
  induction F with
  | zero =>
    intro v
    simp [fracBits]
  | succ F ih =>
    intro v
    simp only [fracBits]
    rw [ih (v / 2), emod_two_pow_succ F v]
    rcases Int.emod_two_eq_zero_or_one v with h | h <;> rw [h] <;> push_cast <;>
      field_simp <;> ring

lemma to_double_eq (F : ℕ) (v : ℤ) : to_double F v = (v : ℚ) / 2 ^ F := by
  rw [to_double, fracBits_eq]
  have h : (2 : ℤ) ^ F * (v / 2 ^ F) + v % 2 ^ F = v := Int.ediv_add_emod v (2 ^ F)
  have hq : ((2 : ℚ) ^ F * ((v / 2 ^ F : ℤ) : ℚ) + ((v % 2 ^ F : ℤ) : ℚ)) = (v : ℚ) := by
    exact_mod_cast congrArg (Int.cast : ℤ → ℚ) h
  have h2F : (0 : ℚ) < 2 ^ F := by positivity
  field_simp
  linarith [hq]

lemma roundAway_intCast (v : ℤ) : roundAway (v : ℚ) = v := by
  unfold roundAway
  split_ifs with h
  · rw [Int.floor_int_add]
    norm_num
  · rw [show ((v : ℚ) - 1 / 2) = (-(1 / 2) : ℚ) + (v : ℚ) by ring, Int.ceil_add_int]
    norm_num

/-! ### C1: float round-trip -/

/-- C1: for every fixed-point type with TotalWidth `T` in 1..64 and every
raw value `v` representable in the `T`-bit field, converting with
`to_double` and back with `float2fixed` (the float constructor) restores
the raw value: `fromFloat sg T F sat (to_double F v) = v`.  Floating-point
numbers are modelled as exact rationals. -/
theorem c1_float_roundtrip (T F : ℕ) (sg sat : Bool) (v : ℤ)
    (hT1 : 1 ≤ T) (hT64 : T ≤ 64) (hF : F ≤ T)
    (hlo : loBound sg T ≤ v) (hhi : v < hiBound sg T) :
    fromFloat sg T F sat (to_double F v) = v := by
  have h2F : (0 : ℚ) < 2 ^ F := by positivity
  have h2F1 : (1 : ℚ) ≤ 2 ^ F := one_le_pow₀ (by norm_num)
  have hmaxnn := maxVal_nonneg sg T hT1
  have hmax : (v : ℚ) / 2 ^ F ≤ (maxVal sg T : ℚ) := by
    rcases le_or_lt 0 v with hv0 | hv0
    · have hvle : v ≤ maxVal sg T := by
        have := maxVal_eq_hiBound_sub_one sg T
        omega
      rw [div_le_iff₀ h2F]
      calc (v : ℚ) ≤ (maxVal sg T : ℚ) := by exact_mod_cast hvle
        _ ≤ (maxVal sg T : ℚ) * 2 ^ F :=
          le_mul_of_one_le_right (by exact_mod_cast hmaxnn) h2F1
    · have hvq : (v : ℚ) / 2 ^ F ≤ 0 :=
        div_nonpos_iff.mpr (Or.inr ⟨by exact_mod_cast hv0.le, h2F.le⟩)
      calc (v : ℚ) / 2 ^ F ≤ 0 := hvq
        _ ≤ (maxVal sg T : ℚ) := by exact_mod_cast hmaxnn
  rw [to_double_eq]
  unfold fromFloat float2fixed
  rw [if_neg (by rintro ⟨_, hc⟩; exact absurd hc (not_lt.mpr hmax))]
  rw [div_mul_cancel₀ _ (ne_of_gt h2F), roundAway_intCast]
  cases sg
  · exact store_false_of_range T v (by simpa [loBound] using hlo) (by simpa [hiBound] using hhi)
  · exact store_true_of_range T hT1 v (by simpa [loBound] using hlo) (by simpa [hiBound] using hhi)

/-- Concrete instance of C1: the unsigned 8-bit type with 3 fractional bits
round-trips the raw value 66 (real value 8.25). -/
theorem c1_float_roundtrip_witness :
    (1 ≤ 8 ∧ 8 ≤ 64 ∧ 3 ≤ 8 ∧ loBound false 8 ≤ 66 ∧ (66 : ℤ) < hiBound false 8) ∧
    fromFloat false 8 3 true (to_double 3 66) = 66 :=
  ⟨⟨by decide, by decide, by decide, by decide, by decide⟩,
   c1_float_roundtrip 8 3 false true 66 (by decide) (by decide) (by decide)
     (by decide) (by decide)⟩

/-! ### C2: same-width addition -/

lemma store_true_high (T : ℕ) (hT : 1 ≤ T) (s : ℤ)
    (h1 : 2 ^ (T - 1) ≤ s) (h2 : s < 3 * 2 ^ (T - 1)) :
    store true T s = s - 2 ^ T := by
  have hp := two_pow_split T hT
  rw [store_true_def, emod_shift_down (2 ^ T) (s + 2 ^ (T - 1)) (by omega) (by omega)]
  ring

lemma store_true_low (T : ℕ) (hT : 1 ≤ T) (s : ℤ)
    (h1 : -(2 ^ T) ≤ s + 2 ^ (T - 1)) (h2 : s < -(2 ^ (T - 1))) :
    store true T s = s + 2 ^ T := by
  have hp := two_pow_split T hT
  rw [store_true_def, emod_shift_up (2 ^ T) (s + 2 ^ (T - 1)) (by omega) (by omega)]
  ring

lemma addSW_false_eq (T : ℕ) (sat : Bool) (a b : ℤ)
    (ha0 : 0 ≤ a) (ha : a < 2 ^ T) (hb0 : 0 ≤ b) (hb : b < 2 ^ T) :
    addSW false T sat a b =
      if sat ∧ 2 ^ T ≤ a + b then maxVal false T else (a + b) % 2 ^ T := by
  cases sat
  · simp [addSW, store_false_def]
  · rcases le_or_lt (2 ^ T) (a + b) with h | h
    · have he : (a + b) % 2 ^ T = a + b - 2 ^ T :=
        emod_shift_down _ _ h (by omega)
      simp only [addSW, store_false_def, maxVal_false_def, he]
      rw [if_pos ⟨by trivial, by omega⟩, if_pos ⟨by trivial, by omega⟩]
    · have he : (a + b) % 2 ^ T = a + b := Int.emod_eq_of_lt (by omega) h
      simp only [addSW, store_false_def, maxVal_false_def, he]
      rw [if_neg (by rintro ⟨-, h2⟩; omega), if_neg (by rintro ⟨-, h2⟩; omega)]

lemma addSW_true_eq (T : ℕ) (hT : 1 ≤ T) (sat : Bool) (a b : ℤ)
    (ha0 : -(2 ^ (T - 1)) ≤ a) (ha : a < 2 ^ (T - 1))
    (hb0 : -(2 ^ (T - 1)) ≤ b) (hb : b < 2 ^ (T - 1)) :
    addSW true T sat a b =
      if sat ∧ (2 ^ (T - 1) ≤ a + b ∨ ((a < 0 ∨ b < 0) ∧ -(2 ^ (T - 1)) ≤ a + b))
      then maxVal true T else store true T (a + b) := by
  have hp := two_pow_split T hT
  cases sat
  · simp [addSW]
  · rcases le_or_lt (2 ^ (T - 1)) (a + b) with h | h
    · have hs : store true T (a + b) = a + b - 2 ^ T :=
        store_true_high T hT _ h (by omega)
      simp only [addSW, hs]
      rw [if_pos ⟨by trivial, by omega⟩, if_pos ⟨by trivial, by omega⟩]
    · rcases le_or_lt (-(2 ^ (T - 1))) (a + b) with h2 | h2
      · have hs : store true T (a + b) = a + b := store_true_of_range T hT _ h2 h
        simp only [addSW, hs]
        by_cases hneg : a < 0 ∨ b < 0
        · rw [if_pos ⟨by trivial, by omega⟩, if_pos ⟨by trivial, by omega⟩]
        · rw [if_neg (by rintro ⟨-, hc⟩; omega), if_neg (by rintro ⟨-, hc⟩; omega)]
      · have hs : store true T (a + b) = a + b + 2 ^ T :=
          store_true_low T hT _ (by omega) h2
        simp only [addSW, hs]
        rw [if_neg (by rintro ⟨-, hc⟩; omega), if_neg (by rintro ⟨-, hc⟩; omega)]

/-- C2: same-width `operator+` adds the raw values; with the saturation
flag on, the result is clamped to the type's maximum raw value exactly when
the wrapped sum is numerically smaller than one of the inputs — for the
unsigned overload that happens precisely on unsigned overflow
`2^T ≤ a + b` — and otherwise the sum wraps modulo `2^T` (two's-complement
wrap for the signed overload, whose clamp condition is characterised
numerically). -/
theorem c2_add_saturates (T : ℕ) (sat : Bool) (hT : 1 ≤ T) :
    (∀ a b : ℤ, 0 ≤ a → a < 2 ^ T → 0 ≤ b → b < 2 ^ T →
      addSW false T sat a b =
        if sat ∧ 2 ^ T ≤ a + b then maxVal false T else (a + b) % 2 ^ T) ∧
    (∀ a b : ℤ, -(2 ^ (T - 1)) ≤ a → a < 2 ^ (T - 1) →
        -(2 ^ (T - 1)) ≤ b → b < 2 ^ (T - 1) →
      addSW true T sat a b =
        if sat ∧ (2 ^ (T - 1) ≤ a + b ∨ ((a < 0 ∨ b < 0) ∧ -(2 ^ (T - 1)) ≤ a + b))
        then maxVal true T else store true T (a + b)) :=
  ⟨fun a b ha0 ha hb0 hb => addSW_false_eq T sat a b ha0 ha hb0 hb,
   fun a b ha0 ha hb0 hb => addSW_true_eq T hT sat a b ha0 ha hb0 hb⟩

/-- Concrete instance of C2: in the unsigned 4-bit type, `9 + 9` overflows
and saturates to 15; in the signed 4-bit type, `3 + (-1)` trips the code's
wrap-detection (the sum 2 is smaller than the input 3) and clamps to 7. -/
theorem c2_add_saturates_witness :
    (1 : ℕ) ≤ 4 ∧ addSW false 4 true 9 9 = maxVal false 4 ∧
      addSW true 4 true 3 (-1) = maxVal true 4 := by
  refine ⟨by decide, ?_, ?_⟩
  · rw [(c2_add_saturates 4 true (by decide)).1 9 9 (by decide) (by decide)
      (by decide) (by decide)]
    decide
  · rw [(c2_add_saturates 4 true (by decide)).2 3 (-1) (by decide) (by decide)
      (by decide) (by decide)]
    decide

/-! ### C9: destructive add vs operator+ -/

/-- Counterexample to C9 as stated: for the signed 4-bit type with
saturation on and raw operands `3` and `-1`, the destructive
`a.add_(b)` stores raw `2` (its clamp test `res > max_val()` fails), while
`a + b` clamps to `max_val() = 7` (its wrap test `sum.val < a.val` fires),
so `add_` does not apply the same saturation policy as `operator+` on
every pair of same-type values. -/
theorem c9_add_destructive_signed_diverges :
    addDestr true 4 true 3 (-1) = 2 ∧ addSW true 4 true 3 (-1) = 7 ∧
      addDestr true 4 true 3 (-1) ≠ addSW true 4 true 3 (-1) := by decide

/-- C9 (amended): for unsigned same-type values of total width at most
30 — widths at which the promoted `int` intermediates of `add_` hold the
sum exactly — the destructive `a.add_(b)` computes the same raw as
`a + b` under the same global saturation flag (in the functional model
the mutation of `a.val` is the returned raw; `b` is untouched by
construction).  For signed values the two clamp conditions differ (see
the counterexample), and from width 32 on the `static_cast<int>`
truncation of the intermediate changes the clamp decision. -/
theorem c9_add_destructive_matches_add_unsigned (T : ℕ) (hT : T ≤ 30) (sat : Bool)
    (a b : ℤ) (ha0 : 0 ≤ a) (ha : a < 2 ^ T) (hb0 : 0 ≤ b) (hb : b < 2 ^ T) :
    addDestr false T sat a b = addSW false T sat a b := by
  have hdouble : (2 : ℤ) ^ (T + 1) = 2 ^ T * 2 := pow_succ 2 T
  have h31 : (2 : ℤ) ^ (T + 1) ≤ 2 ^ 31 := pow_le_pow_right₀ (by norm_num) (by omega)
  have hpow31 : (2 : ℤ) ^ (32 - 1) = 2 ^ 31 := by norm_num
  have h3132 : (2 : ℤ) ^ 31 < 2 ^ 32 := by norm_num
  have hTpos : (0 : ℤ) < 2 ^ T := by positivity
  have harith : arith false T (a + b) = a + b := by
    rw [arith, if_pos (show T < 32 by omega)]
    exact store_true_of_range 32 (by norm_num) _ (by omega) (by omega)
  have hres : store true 32 (a + b) = a + b :=
    store_true_of_range 32 (by norm_num) _ (by omega) (by omega)
  have hcmp : cmpVal false T (a + b) = a + b := by
    by_cases h16 : T ≤ 16
    · simp [cmpVal, h16]
    · have h32 : T ≤ 32 := by omega
      simp only [cmpVal, if_neg Bool.false_ne_true, if_neg h16, if_pos h32]
      exact Int.emod_eq_of_lt (by omega) (by omega)
  rw [addSW_false_eq T sat a b ha0 ha hb0 hb]
  simp only [addDestr, harith, hres, hcmp]
  cases sat
  · simp [store_false_def]
  · simp only [maxVal_false_def, store_false_def]
    by_cases h : 2 ^ T ≤ a + b
    · rw [if_pos ⟨by trivial, by omega⟩, if_pos ⟨by trivial, h⟩]
    · rw [if_neg (by rintro ⟨-, hc⟩; omega), if_neg (by rintro ⟨-, hc⟩; omega)]

/-- Concrete instance of the amended C9: unsigned 8-bit, saturation on,
raws 200 and 100: both `add_` and `operator+` clamp to 255. -/
theorem c9_add_destructive_matches_add_unsigned_witness :
    ((8 : ℕ) ≤ 30 ∧ (0 : ℤ) ≤ 200 ∧ (200 : ℤ) < 2 ^ 8 ∧
      (0 : ℤ) ≤ 100 ∧ (100 : ℤ) < 2 ^ 8) ∧
      addDestr false 8 true 200 100 = addSW false 8 true 200 100 :=
  ⟨⟨by decide, by decide, by decide, by decide, by decide⟩,
   c9_add_destructive_matches_add_unsigned 8 (by decide) true 200 100 (by decide)
     (by decide) (by decide) (by decide)⟩

/-! ### C3: same-width multiplication -/

lemma prod_fit_false (T : ℕ) (a b : ℤ)
    (ha0 : 0 ≤ a) (ha : a < 2 ^ T) (hb0 : 0 ≤ b) (hb : b < 2 ^ T) :
    store false (2 * T) (a * b) = a * b := by
  apply store_false_of_range
  · exact mul_nonneg ha0 hb0
  · calc a * b < 2 ^ T * 2 ^ T := mul_lt_mul'' ha hb ha0 hb0
      _ = 2 ^ (2 * T) := by rw [two_mul, pow_add]

lemma mul_abs_bound (T : ℕ) (a b : ℤ)
    (ha0 : -(2 ^ (T - 1)) ≤ a) (ha : a < 2 ^ (T - 1))
    (hb0 : -(2 ^ (T - 1)) ≤ b) (hb : b < 2 ^ (T - 1)) :
    |a * b| ≤ 2 ^ (2 * T - 2) := by
  rw [abs_mul]
  calc |a| * |b| ≤ 2 ^ (T - 1) * 2 ^ (T - 1) :=
        mul_le_mul (abs_le.mpr ⟨ha0, ha.le⟩) (abs_le.mpr ⟨hb0, hb.le⟩)
          (abs_nonneg b) (by positivity)
    _ = 2 ^ (2 * T - 2) := by
        rw [← pow_add]
        congr 1
        omega

lemma store_range (sg : Bool) (T : ℕ) (hT : 1 ≤ T) (v : ℤ) :
    loBound sg T ≤ store sg T v ∧ store sg T v < hiBound sg T := by
  cases sg
  · simp only [store_false_def, loBound, hiBound, if_neg Bool.false_ne_true]
    exact ⟨Int.emod_nonneg _ (by positivity), Int.emod_lt_of_pos _ (by positivity)⟩
  · have hp := two_pow_split T hT
    simp only [store_true_def, loBound, hiBound, if_pos]
    have hq1 : 0 ≤ (v + 2 ^ (T - 1)) % 2 ^ T := Int.emod_nonneg _ (by positivity)
    have hq2 : (v + 2 ^ (T - 1)) % 2 ^ T < 2 ^ T := Int.emod_lt_of_pos _ (by positivity)
    omega

lemma prod_fit_true (T : ℕ) (hT : 1 ≤ T) (a b : ℤ)
    (ha0 : -(2 ^ (T - 1)) ≤ a) (ha : a < 2 ^ (T - 1))
    (hb0 : -(2 ^ (T - 1)) ≤ b) (hb : b < 2 ^ (T - 1)) :
    store true (2 * T) (a * b) = a * b := by
  have habs : |a * b| ≤ 2 ^ (2 * T - 2) := mul_abs_bound T a b ha0 ha hb0 hb
  have hlt : (2 : ℤ) ^ (2 * T - 2) < 2 ^ (2 * T - 1) :=
    pow_lt_pow_right₀ one_lt_two (by omega)
  have h := abs_le.mp habs
  exact store_true_of_range (2 * T) (by omega) (a * b)
    (by rw [show 2 * T - 1 = 2 * T - 1 from rfl]; omega) (by omega)

/-- Same-width same-signedness `operator*` behaves exactly as the
specification pipeline `mulSpec`: the double-width intermediate
`FixedPt<2*WWID,2*FWID>` holds the raw product exactly, the product is
rescaled by an arithmetic right shift of `FWID` and narrowed to the
target width, the sign bit of the narrowed result is cleared when both
signed operands have the same strict sign, and with saturation on the
result is clamped to the maximum exactly when the true product does not
fit, i.e. `2^(T+F-adjustment) ≤ a*b`. -/
lemma mulSW_eq_mulSpec (T F : ℕ) (sg sat : Bool) (a b : ℤ)
    (hT : 1 ≤ T) (hsmall : T ≤ if sg then 16 else 15)
    (hlo1 : loBound sg T ≤ a) (hhi1 : a < hiBound sg T)
    (hlo2 : loBound sg T ≤ b) (hhi2 : b < hiBound sg T) :
    mulSW sg T F sat a b = mulSpec sg T F sat a b := by
  have hpos : (0 : ℤ) < 2 ^ (T + F - (if sg then 1 else 0)) := by positivity
  have hcond : 0 < a * b / 2 ^ (T + F - (if sg then 1 else 0)) ↔
      2 ^ (T + F - (if sg then 1 else 0)) ≤ a * b := by
    rw [Int.lt_iff_add_one_le, zero_add, Int.le_ediv_iff_mul_le hpos, one_mul]
  have hpow31 : (2 : ℤ) ^ (32 - 1) = 2 ^ 31 := by norm_num
  have harith : arith sg T (a * b) = a * b := by
    rw [arith, if_pos (show T < 32 by cases sg <;> simp at hsmall <;> omega)]
    cases sg
    · simp at hsmall
      have hb1 : 0 ≤ a * b :=
        mul_nonneg (by simpa [loBound] using hlo1) (by simpa [loBound] using hlo2)
      have hb2 : a * b < 2 ^ (2 * T) := by
        calc a * b < 2 ^ T * 2 ^ T :=
              mul_lt_mul'' (by simpa [hiBound] using hhi1) (by simpa [hiBound] using hhi2)
                (by simpa [loBound] using hlo1) (by simpa [loBound] using hlo2)
          _ = 2 ^ (2 * T) := by rw [two_mul, pow_add]
      have hle : (2 : ℤ) ^ (2 * T) ≤ 2 ^ 30 := pow_le_pow_right₀ (by norm_num) (by omega)
      have h3031 : (2 : ℤ) ^ 30 ≤ 2 ^ 31 := by norm_num
      exact store_true_of_range 32 (by norm_num) _ (by omega) (by omega)
    · simp at hsmall
      have habs := mul_abs_bound T a b (by simpa [loBound] using hlo1)
        (by simpa [hiBound] using hhi1) (by simpa [loBound] using hlo2)
        (by simpa [hiBound] using hhi2)
      have hle : (2 : ℤ) ^ (2 * T - 2) ≤ 2 ^ 30 := pow_le_pow_right₀ (by norm_num) (by omega)
      have h3031 : (2 : ℤ) ^ 30 ≤ 2 ^ 31 := by norm_num
      have h := abs_le.mp habs
      exact store_true_of_range 32 (by norm_num) _ (by omega) (by omega)
  have hfit : store sg (2 * T) (a * b) = a * b := by
    cases sg
    · exact prod_fit_false T a b (by simpa [loBound] using hlo1)
        (by simpa [hiBound] using hhi1) (by simpa [loBound] using hlo2)
        (by simpa [hiBound] using hhi2)
    · exact prod_fit_true T hT a b (by simpa [loBound] using hlo1)
        (by simpa [hiBound] using hhi1) (by simpa [loBound] using hlo2)
        (by simpa [hiBound] using hhi2)
  simp only [mulSW, mulSpec, harith, hfit]
  exact if_congr (and_congr_right fun _ => hcond) rfl rfl

lemma ediv_pos_iff (x d : ℤ) (hd : 0 < d) : 0 < x / d ↔ d ≤ x := by
  rw [Int.lt_iff_add_one_le, zero_add, Int.le_ediv_iff_mul_le hd, one_mul]

lemma shifted_bound_false (Ts sh Tr : ℕ) (v : ℤ) (h : v < 2 ^ Ts)
    (hle : Ts + sh ≤ Tr) : v * 2 ^ sh < 2 ^ Tr := by
  calc v * 2 ^ sh < 2 ^ Ts * 2 ^ sh := mul_lt_mul_of_pos_right h (by positivity)
    _ = 2 ^ (Ts + sh) := (pow_add 2 Ts sh).symm
    _ ≤ 2 ^ Tr := pow_le_pow_right₀ (by norm_num) hle

lemma shifted_bound_true (Ps sh Pr : ℕ) (v : ℤ) (h0 : -(2 ^ Ps) ≤ v)
    (h : v < 2 ^ Ps) (hle : Ps + sh ≤ Pr) :
    -(2 ^ Pr) ≤ v * 2 ^ sh ∧ v * 2 ^ sh < 2 ^ Pr := by
  have hle2 : (2 : ℤ) ^ (Ps + sh) ≤ 2 ^ Pr := pow_le_pow_right₀ (by norm_num) hle
  have hlow : -(2 ^ (Ps + sh)) ≤ v * 2 ^ sh := by
    calc -(2 ^ (Ps + sh)) = -(2 ^ Ps) * 2 ^ sh := by rw [pow_add]; ring
      _ ≤ v * 2 ^ sh := mul_le_mul_of_nonneg_right h0 (by positivity)
  refine ⟨by linarith, ?_⟩
  rcases le_or_lt v 0 with hv | hv
  · have hvp : v * 2 ^ sh ≤ 0 := mul_nonpos_of_nonpos_of_nonneg hv (by positivity)
    have : (0 : ℤ) < 2 ^ Pr := by positivity
    linarith
  · have hsh : (0 : ℤ) < 2 ^ sh := by positivity
    calc v * 2 ^ sh ≤ (2 ^ Ps - 1) * 2 ^ sh :=
          mul_le_mul_of_nonneg_right (by omega) (by positivity)
      _ = 2 ^ (Ps + sh) - 2 ^ sh := by rw [sub_mul, one_mul, pow_add]
      _ < 2 ^ (Ps + sh) := by omega
      _ ≤ 2 ^ Pr := hle2

/-- Mixed-width same-signedness `operator*` behaves exactly as the
specification pipeline `mulMXSpec`: the double-width intermediate holds
the aligned raw product exactly and the saturation shift test is the
inequality on the true product. -/
lemma mulMX_eq_mulMXSpec (sg sat : Bool) (x y : Fx)
    (hx : 1 ≤ x.W + x.F) (hy : 1 ≤ y.W + y.F)
    (hsmall : max x.W y.W + max x.F y.F ≤ if sg then 16 else 15)
    (h1 : loBound sg (x.W + x.F) ≤ x.raw) (h2 : x.raw < hiBound sg (x.W + x.F))
    (h3 : loBound sg (y.W + y.F) ≤ y.raw) (h4 : y.raw < hiBound sg (y.W + y.F)) :
    mulMX sg sat x y = mulMXSpec sg sat x y := by
  simp only [mulMX, mulMXSpec]
  set lv := if y.F ≤ x.F then x.raw else y.raw with hlv
  set lw := if y.F ≤ x.F then x.F else y.F with hlw
  set sv := if x.F < y.F then x.raw else y.raw with hsv
  set sw := if x.F < y.F then x.F else y.F with hsw
  set Wr := max x.W y.W with hWr
  set Fr := max x.F y.F with hFr
  have hpos : (0 : ℤ) < 2 ^ (Wr + 2 * Fr - (if sg then 1 else 0)) := by positivity
  have hcond := ediv_pos_iff (lv * (sv * 2 ^ (lw - sw))) _ hpos
  have hfit : store sg (2 * (Wr + Fr)) (lv * (sv * 2 ^ (lw - sw)))
      = lv * (sv * 2 ^ (lw - sw)) := by
    cases sg
    · simp only [loBound, hiBound, if_neg Bool.false_ne_true] at h1 h2 h3 h4
      apply prod_fit_false (Wr + Fr) lv (sv * 2 ^ (lw - sw)) ?_ ?_ ?_ ?_
      · rcases le_or_lt y.F x.F with hf | hf
        · rw [hlv, if_pos hf]; exact h1
        · rw [hlv, if_neg (not_le.mpr hf)]; exact h3
      · rcases le_or_lt y.F x.F with hf | hf
        · rw [hlv, if_pos hf]
          exact lt_of_lt_of_le h2 (pow_le_pow_right₀ (by norm_num) (by omega))
        · rw [hlv, if_neg (not_le.mpr hf)]
          exact lt_of_lt_of_le h4 (pow_le_pow_right₀ (by norm_num) (by omega))
      · rw [hsv]
        split_ifs
        · exact mul_nonneg h1 (by positivity)
        · exact mul_nonneg h3 (by positivity)
      · rcases le_or_lt y.F x.F with hf | hf
        · rw [hsv, if_neg (not_lt.mpr hf), hlw, if_pos hf, hsw, if_neg (not_lt.mpr hf)]
          exact shifted_bound_false (y.W + y.F) (x.F - y.F) (Wr + Fr) y.raw h4 (by omega)
        · rw [hsv, if_pos hf, hlw, if_neg (not_le.mpr hf), hsw, if_pos hf]
          exact shifted_bound_false (x.W + x.F) (y.F - x.F) (Wr + Fr) x.raw h2 (by omega)
    · simp only [loBound, hiBound, if_pos] at h1 h2 h3 h4
      have hx1 : (2 : ℤ) ^ (x.W + x.F - 1) ≤ 2 ^ (Wr + Fr - 1) :=
        pow_le_pow_right₀ (by norm_num) (by omega)
      have hy1 : (2 : ℤ) ^ (y.W + y.F - 1) ≤ 2 ^ (Wr + Fr - 1) :=
        pow_le_pow_right₀ (by norm_num) (by omega)
      apply prod_fit_true (Wr + Fr) (by omega) lv (sv * 2 ^ (lw - sw)) ?_ ?_ ?_ ?_
      · rcases le_or_lt y.F x.F with hf | hf
        · rw [hlv, if_pos hf]; linarith
        · rw [hlv, if_neg (not_le.mpr hf)]; linarith
      · rcases le_or_lt y.F x.F with hf | hf
        · rw [hlv, if_pos hf]; linarith
        · rw [hlv, if_neg (not_le.mpr hf)]; linarith
      · rcases le_or_lt y.F x.F with hf | hf
        · rw [hsv, if_neg (not_lt.mpr hf), hlw, if_pos hf, hsw, if_neg (not_lt.mpr hf)]
          exact (shifted_bound_true (y.W + y.F - 1) (x.F - y.F) (Wr + Fr - 1) y.raw
            h3 h4 (by omega)).1
        · rw [hsv, if_pos hf, hlw, if_neg (not_le.mpr hf), hsw, if_pos hf]
          exact (shifted_bound_true (x.W + x.F - 1) (y.F - x.F) (Wr + Fr - 1) x.raw
            h1 h2 (by omega)).1
      · rcases le_or_lt y.F x.F with hf | hf
        · rw [hsv, if_neg (not_lt.mpr hf), hlw, if_pos hf, hsw, if_neg (not_lt.mpr hf)]
          exact (shifted_bound_true (y.W + y.F - 1) (x.F - y.F) (Wr + Fr - 1) y.raw
            h3 h4 (by omega)).2
        · rw [hsv, if_pos hf, hlw, if_neg (not_le.mpr hf), hsw, if_pos hf]
          exact (shifted_bound_true (x.W + x.F - 1) (y.F - x.F) (Wr + Fr - 1) x.raw
            h1 h2 (by omega)).2
  have hrange := store_range sg (2 * (Wr + Fr)) (by omega) (lv * (sv * 2 ^ (lw - sw)))
  rw [hfit] at hrange
  have hpow31 : (2 : ℤ) ^ (32 - 1) = 2 ^ 31 := by norm_num
  have harith : arith sg (max (x.W + x.F) (y.W + y.F)) (lv * (sv * 2 ^ (lw - sw)))
      = lv * (sv * 2 ^ (lw - sw)) := by
    have hmax32 : max (x.W + x.F) (y.W + y.F) < 32 := by
      cases sg <;> simp at hsmall <;> omega
    rw [arith, if_pos hmax32]
    cases sg
    · simp at hsmall
      simp only [loBound, hiBound, if_neg Bool.false_ne_true] at hrange
      have hle : (2 : ℤ) ^ (2 * (Wr + Fr)) ≤ 2 ^ 30 :=
        pow_le_pow_right₀ (by norm_num) (by omega)
      have h3031 : (2 : ℤ) ^ 30 ≤ 2 ^ 31 := by norm_num
      exact store_true_of_range 32 (by norm_num) _ (by omega) (by omega)
    · simp at hsmall
      simp only [loBound, hiBound, if_pos] at hrange
      have hle : (2 : ℤ) ^ (2 * (Wr + Fr) - 1) ≤ 2 ^ 31 :=
        pow_le_pow_right₀ (by norm_num) (by omega)
      exact store_true_of_range 32 (by norm_num) _ (by omega) (by omega)
  rw [harith, hfit]
  rw [if_congr (and_congr_right fun _ => hcond) rfl rfl]

/-- Counterexample to C3 as stated: `FixedPt<10,10>` (total width 20,
unsigned) at raws `2^19 × 2^19` with saturation on.  The operands are
promoted to 32-bit arithmetic, where the raw product `2^38` wraps to 0
before the double-width store, so the code returns raw 0 with no clamp;
the claimed full double-width pipeline (`mulSpec`) keeps `2^38` exactly
and clamps to the maximum `2^20 - 1`. -/
theorem c3_mul_product_wrap_counterexample :
    mulSW false 20 10 true (2 ^ 19) (2 ^ 19) = 0 ∧
      mulSpec false 20 10 true (2 ^ 19) (2 ^ 19) = 2 ^ 20 - 1 ∧
      mulSW false 20 10 true (2 ^ 19) (2 ^ 19) ≠
        mulSpec false 20 10 true (2 ^ 19) (2 ^ 19) := by
  refine ⟨?_, ?_, ?_⟩ <;> decide

/-- C3 (amended): for same-signedness operands whose result total width
is small enough for the raw product to survive the 32-bit arithmetic in
which C++ computes it — total width at most 15 for unsigned types, 16
for signed — multiplication computes the full double-width raw product
in a `FixedPt` with doubled whole and doubled fractional widths (held
exactly), shifts it right by the result's fractional width, and narrows
to the target width; with saturation on the result is clamped to the
maximum exactly when bits remain set above the target's bit range — one
position lower when signed, to account for the sign bit — i.e. when
`2^(W + 2F - adjustment)` is at most the (aligned) true product; and for
signed operands of equal strict sign the sign bit of the narrowed result
is cleared.  For larger total widths up to 32 the product wraps at 32
bits first (see the counterexample), and beyond 32 the doubled-width
`FixedPt` does not instantiate.  The first conjunct is the same-width
operator family, the second the mixed-width family. -/
theorem c3_mul_double_width_pipeline (sg sat : Bool) :
    (∀ T F : ℕ, ∀ a b : ℤ, 1 ≤ T → T ≤ (if sg then 16 else 15) →
      loBound sg T ≤ a → a < hiBound sg T →
      loBound sg T ≤ b → b < hiBound sg T →
      mulSW sg T F sat a b = mulSpec sg T F sat a b) ∧
    (∀ x y : Fx, 1 ≤ x.W + x.F → 1 ≤ y.W + y.F →
      max x.W y.W + max x.F y.F ≤ (if sg then 16 else 15) →
      loBound sg (x.W + x.F) ≤ x.raw → x.raw < hiBound sg (x.W + x.F) →
      loBound sg (y.W + y.F) ≤ y.raw → y.raw < hiBound sg (y.W + y.F) →
      mulMX sg sat x y = mulMXSpec sg sat x y) :=
  ⟨fun T F a b hT hs ha1 ha2 hb1 hb2 =>
      mulSW_eq_mulSpec T F sg sat a b hT hs ha1 ha2 hb1 hb2,
   fun x y hx hy hs ha1 ha2 hb1 hb2 =>
      mulMX_eq_mulMXSpec sg sat x y hx hy hs ha1 ha2 hb1 hb2⟩

/-- Concrete instances of the amended C3: the signed 4-bit type with 2
fractional bits at raws 3 × 3, and the mixed pair `FixedPt<2,2,signed>`
raw 3 by `FixedPt<3,1,signed>` raw 5. -/
theorem c3_mul_double_width_pipeline_witness :
    ((1 : ℕ) ≤ 4 ∧ (4 : ℕ) ≤ (if true then 16 else 15) ∧
      loBound true 4 ≤ 3 ∧ (3 : ℤ) < hiBound true 4 ∧
      max 2 3 + max 2 1 ≤ (if true then 16 else 15) ∧
      loBound true (2 + 2) ≤ 3 ∧ (3 : ℤ) < hiBound true (2 + 2) ∧
      loBound true (3 + 1) ≤ 5 ∧ (5 : ℤ) < hiBound true (3 + 1)) ∧
      mulSW true 4 2 true 3 3 = mulSpec true 4 2 true 3 3 ∧
      mulMX true true ⟨2, 2, 3⟩ ⟨3, 1, 5⟩ = mulMXSpec true true ⟨2, 2, 3⟩ ⟨3, 1, 5⟩ :=
  ⟨⟨by decide, by decide, by decide, by decide, by decide, by decide, by decide,
     by decide, by decide⟩,
   (c3_mul_double_width_pipeline true true).1 4 2 3 3 (by decide) (by decide)
     (by decide) (by decide) (by decide) (by decide),
   (c3_mul_double_width_pipeline true true).2 ⟨2, 2, 3⟩ ⟨3, 1, 5⟩ (by decide)
     (by decide) (by decide) (by decide) (by decide) (by decide) (by decide)⟩

/-! ### C6: storage type selection -/

lemma TypeForSize_eq_8 (N : ℕ) (h1 : 0 < N) (h2 : N < 9) :
    TypeForSize N = some 8 := by
  simp [TypeForSize, h1, h2]

lemma TypeForSize_eq_16 (N : ℕ) (h1 : 8 < N) (h2 : N < 17) :
    TypeForSize N = some 16 := by
  have h0 : ¬(0 < N ∧ N < 9) := by omega
  simp [TypeForSize, h0, h1, h2]

lemma TypeForSize_eq_32 (N : ℕ) (h1 : 16 < N) (h2 : N < 33) :
    TypeForSize N = some 32 := by
  have h0 : ¬(0 < N ∧ N < 9) := by omega
  have h0b : ¬(8 < N ∧ N < 17) := by omega
  simp [TypeForSize, h0, h0b, h1, h2]

lemma TypeForSize_eq_64 (N : ℕ) (h1 : 32 < N) (h2 : N < 65) :
    TypeForSize N = some 64 := by
  have h0 : ¬(0 < N ∧ N < 9) := by omega
  have h0b : ¬(8 < N ∧ N < 17) := by omega
  have h0c : ¬(16 < N ∧ N < 33) := by omega
  simp [TypeForSize, h0, h0b, h0c, h1, h2]

lemma TypeForSize_eq_none (N : ℕ) (h : N = 0 ∨ 64 < N) : TypeForSize N = none := by
  have h0 : ¬(0 < N ∧ N < 9) := by omega
  have h0b : ¬(8 < N ∧ N < 17) := by omega
  have h0c : ¬(16 < N ∧ N < 33) := by omega
  have h0d : ¬(32 < N ∧ N < 65) := by omega
  simp [TypeForSize, h0, h0b, h0c, h0d]

/-- C6: for every total width `N` with `1 ≤ N ≤ 64` and signedness flag,
the storage selection deterministically yields a native integer kind of
bit size `w ∈ {8, 16, 32, 64}` with `w ≥ N`, minimal among the standard
sizes that fit (so the value occupies `w / 8` bytes, witnessed by
`w % 8 = 0`), with the requested signedness; for `N = 0` or `N > 64` no
specialisation applies and instantiation is rejected. -/
theorem c6_storage_selection (N : ℕ) (sg : Bool) :
    (1 ≤ N → N ≤ 64 →
      ∃ w, TypeForSizeS N sg = some (w, sg) ∧
        (w = 8 ∨ w = 16 ∨ w = 32 ∨ w = 64) ∧ N ≤ w ∧ w % 8 = 0 ∧
        (∀ u, (u = 8 ∨ u = 16 ∨ u = 32 ∨ u = 64) → N ≤ u → w ≤ u)) ∧
    ((N = 0 ∨ 64 < N) → TypeForSizeS N sg = none) := by
  constructor
  · intro h1 h64
    by_cases c8 : N < 9
    · refine ⟨8, ?_, by omega, by omega, by omega, ?_⟩
      · rw [TypeForSizeS, TypeForSize_eq_8 N (by omega) c8]; rfl
      · rintro u (rfl | rfl | rfl | rfl) hu <;> omega
    · by_cases c16 : N < 17
      · refine ⟨16, ?_, by omega, by omega, by omega, ?_⟩
        · rw [TypeForSizeS, TypeForSize_eq_16 N (by omega) c16]; rfl
        · rintro u (rfl | rfl | rfl | rfl) hu <;> omega
      · by_cases c32 : N < 33
        · refine ⟨32, ?_, by omega, by omega, by omega, ?_⟩
          · rw [TypeForSizeS, TypeForSize_eq_32 N (by omega) c32]; rfl
          · rintro u (rfl | rfl | rfl | rfl) hu <;> omega
        · refine ⟨64, ?_, by omega, by omega, by omega, ?_⟩
          · rw [TypeForSizeS, TypeForSize_eq_64 N (by omega) (by omega)]; rfl
          · rintro u (rfl | rfl | rfl | rfl) hu <;> omega
  · intro h
    rw [TypeForSizeS, TypeForSize_eq_none N h]; rfl

/-- Concrete instances of C6: total width 12 selects the 16-bit unsigned
kind (2 bytes); total width 70 (and width 0) has no storage kind. -/
theorem c6_storage_selection_witness :
    ((1 : ℕ) ≤ 12 ∧ (12 : ℕ) ≤ 64 ∧ ((70 : ℕ) = 0 ∨ 64 < (70 : ℕ))) ∧
      (∃ w, TypeForSizeS 12 false = some (w, false) ∧
        (w = 8 ∨ w = 16 ∨ w = 32 ∨ w = 64) ∧ 12 ≤ w ∧ w % 8 = 0 ∧
        (∀ u, (u = 8 ∨ u = 16 ∨ u = 32 ∨ u = 64) → 12 ≤ u → w ≤ u)) ∧
      TypeForSizeS 70 true = none :=
  ⟨⟨by decide, by decide, by decide⟩,
   (c6_storage_selection 12 false).1 (by decide) (by decide),
   (c6_storage_selection 70 true).2 (by decide)⟩

/-! ### C5: from_float clamp threshold -/

/-- C5 evaluated at a failing input: the unsigned type `FixedPt<5,3>`
(T = 8, max raw 255, max representable real value 255/8 = 31.875), with
saturation on and input n = 100.  The input exceeds the maximum
representable real value, so by the claim the raw should clamp to 255;
the code's guard compares n against the RAW maximum (`n > max_val()`,
i.e. 100 > 255, false) and instead computes `round(100 * 8) = 800`,
which the bit-field constructor wraps to 32. -/
theorem c5_fromfloat_clamp_threshold_bug :
    float2fixed false 8 3 true 100 = 800 ∧
      fromFloat false 8 3 true 100 = 32 ∧
      (maxVal false 8 : ℚ) / 2 ^ 3 < 100 ∧
      fromFloat false 8 3 true 100 ≠ maxVal false 8 := by
  refine ⟨?_, ?_, ?_, ?_⟩ <;>
    norm_num [float2fixed, fromFloat, maxVal, roundAway, store]

/-! ### C7: division rounding -/

/-- Counterexample to C7 as stated: same-width unsigned division of raw 1
by raw 3 in `FixedPt<5,3>`.  The exact rescaled quotient is
`(1/3)*8 = 8/3 ≈ 2.67`; rounding toward the NEAREST integer (as the claim
states) gives 3, but the code's `int(...)` conversion truncates toward
zero and produces raw 2. -/
theorem c7_div_rounds_toward_zero_counterexample :
    divSW false 8 3 true 1 3 = 2 ∧ roundAway ((1 : ℚ) / 3 * 2 ^ 3) = 3 ∧
      divSW false 8 3 true 1 3 ≠ roundAway ((1 : ℚ) / 3 * 2 ^ 3) := by
  refine ⟨?_, ?_, ?_⟩ <;>
    norm_num [divSW, ratTrunc, roundAway, store]

lemma ratTrunc_div_eq (num den : ℤ) (k : ℕ) (hn : 0 ≤ num) (hd : 0 < den) :
    ratTrunc ((num : ℚ) / (den : ℚ) * 2 ^ k) = num * 2 ^ k / den := by
  unfold ratTrunc
  have hnq : (0 : ℚ) ≤ (num : ℚ) := by exact_mod_cast hn
  have hdq : (0 : ℚ) ≤ (den : ℚ) := by exact_mod_cast hd.le
  rw [if_pos (mul_nonneg (div_nonneg hnq hdq) (by positivity))]
  obtain ⟨n, rfl⟩ : ∃ n : ℕ, den = (n : ℤ) := ⟨den.toNat, (Int.toNat_of_nonneg hd.le).symm⟩
  have hcast : (num : ℚ) / ((n : ℤ) : ℚ) * 2 ^ k
      = ((num * 2 ^ k : ℤ) : ℚ) / ((n : ℕ) : ℚ) := by
    push_cast
    ring
  rw [hcast, Rat.floor_intCast_div_natCast]

/-- C7 (amended): division never applies a saturation clamp and never
reads the saturation flag; the rescaled quotient is converted with
`int(...)`, truncating TOWARD ZERO, before the store into the target
field.  First conjunct: same-width division is the integer floor
quotient `a * 2^F / b` (nonnegative dividend, positive divisor) and is
flag-independent.  The remaining conjuncts cover the mixed-width
operator, whose orientation branch compares raw values
(`a.val == smaller_frac_val`): with the dividend fractional width
larger-or-equal and distinct raw values the divisor is shifted; with the
dividend fractional width smaller, or with equal raw values (the same
orientation slip as mixed subtraction), the dividend is shifted. -/
theorem c7_div_truncates_no_saturation :
    (∀ (T F : ℕ) (sat sat2 : Bool) (a b : ℤ), 0 ≤ a → 0 < b →
      divSW false T F sat a b = store false T (a * 2 ^ F / b) ∧
      divSW false T F sat a b = divSW false T F sat2 a b) ∧
    (∀ x y : Fx, y.F ≤ x.F → x.raw ≠ y.raw → 0 ≤ x.raw → 0 < y.raw →
      divMX x y = ⟨max x.W y.W, max x.F y.F,
        store false (max x.W y.W + max x.F y.F)
          (x.raw * 2 ^ max x.F y.F / (y.raw * 2 ^ (x.F - y.F)))⟩) ∧
    (∀ x y : Fx, x.F < y.F → 0 ≤ x.raw → 0 < y.raw →
      divMX x y = ⟨max x.W y.W, max x.F y.F,
        store false (max x.W y.W + max x.F y.F)
          (x.raw * 2 ^ (y.F - x.F) * 2 ^ max x.F y.F / y.raw)⟩) ∧
    (∀ x y : Fx, y.F ≤ x.F → x.raw = y.raw → 0 ≤ x.raw → 0 < y.raw →
      divMX x y = ⟨max x.W y.W, max x.F y.F,
        store false (max x.W y.W + max x.F y.F)
          (x.raw * 2 ^ (x.F - y.F) * 2 ^ max x.F y.F / y.raw)⟩) := by
  refine ⟨?_, ?_, ?_, ?_⟩
  · intro T F sat sat2 a b ha hb
    refine ⟨?_, rfl⟩
    unfold divSW
    rw [ratTrunc_div_eq a b F ha hb]
  · intro x y hf hne hx hy
    have hden : (0 : ℤ) < y.raw * 2 ^ (x.F - y.F) := mul_pos hy (by positivity)
    simp only [divMX]
    rw [if_pos hf, if_neg (not_lt.mpr hf), if_neg (not_lt.mpr hf), if_neg hne]
    rw [ratTrunc_div_eq x.raw (y.raw * 2 ^ (x.F - y.F)) (max x.F y.F) hx hden]
  · intro x y hf hx hy
    have hnum : (0 : ℤ) ≤ x.raw * 2 ^ (y.F - x.F) := mul_nonneg hx (by positivity)
    simp only [divMX]
    rw [if_neg (not_le.mpr hf), if_pos hf, if_pos hf, if_pos rfl]
    rw [ratTrunc_div_eq (x.raw * 2 ^ (y.F - x.F)) y.raw (max x.F y.F) hnum hy]
  · intro x y hf heq hx hy
    have hnum : (0 : ℤ) ≤ x.raw * 2 ^ (x.F - y.F) := mul_nonneg hx (by positivity)
    simp only [divMX]
    rw [if_pos hf, if_neg (not_lt.mpr hf), if_neg (not_lt.mpr hf), if_pos heq]
    rw [ratTrunc_div_eq (x.raw * 2 ^ (x.F - y.F)) y.raw (max x.F y.F) hnum hy]

/-- Concrete instances of the amended C7: `1 / 3` in `FixedPt<5,3>` is
the integer quotient `8 / 3 = 2` under either flag state; the three
mixed-width orientation cases at `FixedPt<4,4>` / `FixedPt<5,3>`
operands, including the equal-raw-values slip case. -/
theorem c7_div_truncates_no_saturation_witness :
    ((0 : ℤ) ≤ 1 ∧ (0 : ℤ) < 3 ∧ (3 : ℕ) ≤ 4 ∧ (2 : ℤ) ≠ 1 ∧ (3 : ℕ) < 4) ∧
      (divSW false 8 3 true 1 3 = store false 8 (1 * 2 ^ 3 / 3) ∧
        divSW false 8 3 true 1 3 = divSW false 8 3 false 1 3) ∧
      divMX ⟨4, 4, 2⟩ ⟨5, 3, 1⟩ =
        ⟨5, 4, store false 9 (2 * 2 ^ 4 / (1 * 2 ^ (4 - 3)))⟩ ∧
      divMX ⟨5, 3, 1⟩ ⟨4, 4, 3⟩ =
        ⟨5, 4, store false 9 (1 * 2 ^ (4 - 3) * 2 ^ 4 / 3)⟩ ∧
      divMX ⟨4, 4, 1⟩ ⟨5, 3, 1⟩ =
        ⟨5, 4, store false 9 (1 * 2 ^ (4 - 3) * 2 ^ 4 / 1)⟩ :=
  ⟨⟨by decide, by decide, by decide, by decide, by decide⟩,
   c7_div_truncates_no_saturation.1 8 3 true false 1 3 (by decide) (by decide),
   c7_div_truncates_no_saturation.2.1 ⟨4, 4, 2⟩ ⟨5, 3, 1⟩ (by decide) (by decide)
     (by decide) (by decide),
   c7_div_truncates_no_saturation.2.2.1 ⟨5, 3, 1⟩ ⟨4, 4, 3⟩ (by decide) (by decide)
     (by decide),
   c7_div_truncates_no_saturation.2.2.2 ⟨4, 4, 1⟩ ⟨5, 3, 1⟩ (by decide) (by decide)
     (by decide) (by decide)⟩

/-! ### C10: division is unguarded -/

lemma ratTrunc_zero : ratTrunc 0 = 0 := by
  norm_num [ratTrunc]

lemma store_zero_false (T : ℕ) : store false T 0 = 0 := by
  simp [store]

/-- C10: the division operators never check the divisor and never clamp:
for every pair of raw operands — a divisor raw of 0 included — the
same-width result is independent of the global saturation flag and is
produced by the one unconditional convert-to-int pipeline, and the
mixed-width operator feeds a zero divisor straight into the quotient in
both of its orientation branches (in the exact-rational model Lean's
convention `q / 0 = 0` stands in for the IEEE infinite quotient whose
unguarded `int` conversion the C++ code performs). -/
theorem c10_div_never_guards_divisor (T F : ℕ) (sat sat2 : Bool) (a b : ℤ) :
    divSW false T F sat a b = divSW false T F sat2 a b ∧
      divSW true T F sat a b = divSW true T F sat2 a b ∧
      divSW false T F sat a 0 =
        store false T (ratTrunc ((a : ℚ) / ((0 : ℤ) : ℚ) * 2 ^ F)) ∧
      (∀ W1 F1 W2 F2 : ℕ, (divMX ⟨W1, F1, a⟩ ⟨W2, F2, 0⟩).raw = 0) := by
  refine ⟨rfl, rfl, rfl, ?_⟩
  intro W1 F1 W2 F2
  show store false _ _ = 0
  split_ifs <;>
    simp [ratTrunc_zero, store_zero_false]

/-! ### C4 and C8: mixed-width alignment and subtraction -/

/-- C4 evaluated at a failing input: mixed-width subtraction of
`FixedPt<4,4>` raw 1 (value 1/16) and `FixedPt<5,3>` raw 1 (value 1/8).
The result widths are `(max W, max F) = (5, 4)` as the claim states, but
the first operand has the LARGER fractional width and equal raw values
make the orientation branch `a.val == smaller_frac_val` fire, so the code
left-shifts the larger-fractional-width operand: the raw result is
`(1 << 1) - 1 = 1`, not the claim's aligned combination
`1 - (1 << 1) = -1` wrapped to 511 in the 9-bit result field. -/
theorem c4_mixed_sub_misaligned :
    subMX ⟨4, 4, 1⟩ ⟨5, 3, 1⟩ = ⟨5, 4, 1⟩ ∧
      store false 9 (1 - 1 * 2 ^ (4 - 3)) = 511 ∧
      (subMX ⟨4, 4, 1⟩ ⟨5, 3, 1⟩).raw ≠ store false 9 (1 - 1 * 2 ^ (4 - 3)) := by
  refine ⟨?_, ?_, ?_⟩ <;> decide

/-- C8 evaluated at a failing input: mixed-width subtraction of
`FixedPt<3,5>` raw 7 and `FixedPt<6,2>` raw 7.  Because the raw values
are equal, the branch `a.val == smaller_frac_val` selects the wrong
orientation: the code computes `(7 << 3) - 7 = 49` instead of the aligned
difference `7 - (7 << 3) = -49` (which wraps to 1999 in the 11-bit result
field), and the operation is even commutative at this input — `b - a`
also yields raw 49 — contradicting the claimed aligned, order-determined
subtraction. -/
theorem c8_mixed_sub_equal_raw_divergence :
    subMX ⟨3, 5, 7⟩ ⟨6, 2, 7⟩ = ⟨6, 5, 49⟩ ∧
      store false 11 (7 - 7 * 2 ^ (5 - 2)) = 1999 ∧
      (subMX ⟨3, 5, 7⟩ ⟨6, 2, 7⟩).raw ≠ store false 11 (7 - 7 * 2 ^ (5 - 2)) ∧
      (subMX ⟨6, 2, 7⟩ ⟨3, 5, 7⟩).raw = (subMX ⟨3, 5, 7⟩ ⟨6, 2, 7⟩).raw := by
  refine ⟨?_, ?_, ?_, ?_⟩ <;> decide

end FPMath
